import Mathlib

/-!
Verification of the raster index-mapping and peak-suppression engine of the
lsdc repository (src/utils/raster.py).  The Python functions are shallowly
embedded: Python integers become Int (floor division // is Int.fdiv, the
remainder operator is Int.emod, whose value agrees with the Python remainder
for the divisor 2 used here), the optional direction string becomes
Option String, a Python function that can raise becomes an Except- or
Option-valued function, and a function that can fall off the end without
returning becomes an Option-valued function that yields none on that path.
-/

/-- Embedding of calculate_matrix_index from src/utils/raster.py.
Takes the linear index k, the shape M (rows) and N (columns), and the
direction string; returns the pair (i, j).  The Python function has no
return statement outside the two recognized branches, so an unrecognized
direction (including None) falls off the end: modelled by the value none. -/
def calculate_matrix_index (k M N : Int) (pattern : Option String) : Option (Int × Int) :=
  if pattern = some "horizontal" then
    let i := Int.fdiv k N
    let j := if Int.emod i 2 = 0 then k - (i * N) else N - (k - (i * N)) - 1
    some (i, j)
  else if pattern = some "vertical" then
    let j := Int.fdiv k M
    let i := if Int.emod j 2 = 0 then k - (j * M) else M - (k - (j * M)) - 1
    some (i, j)
  else
    none

/-- Embedding of calculate_flattened_index from src/utils/raster.py.
The source signature is (y, x, num_cols, num_rows, pattern); the parameter
names are kept exactly as written there.  A raised ValueError is modelled
as Except.error with the message of the source. -/
def calculate_flattened_index (y x num_cols num_rows : Int)
    (pattern : Option String) : Except String Int :=
  if pattern = some "horizontal" then
    if Int.emod y 2 = 0 then Except.ok (y * num_rows + x)
    else Except.ok (y * num_rows + (num_rows - 1 - x))
  else if pattern = some "vertical" then
    if Int.emod x 2 = 0 then Except.ok (x * num_cols + y)
    else Except.ok (x * num_cols + (num_cols - 1 - y))
  else if pattern = none then
    Except.ok (y * num_rows + x)
  else
    Except.error "Invalid pattern specified"

/-- Helper: the horizontal round trip.  Whatever pair calculate_matrix_index
produces at k is mapped back to k by calculate_flattened_index when both
receive the same third and fourth arguments in the same positions. -/
theorem roundtrip_horizontal (rows cols k i j : Int)
    (h : calculate_matrix_index k rows cols (some "horizontal") = some (i, j)) :
    calculate_flattened_index i j rows cols (some "horizontal") = Except.ok k := by
  simp only [calculate_matrix_index, Option.some.injEq, Prod.mk.injEq,
    String.reduceEq, reduceCtorEq, reduceIte] at h
  obtain ⟨hi, hj⟩ := h
  subst hi
  simp only [calculate_flattened_index, String.reduceEq, reduceCtorEq, reduceIte]
  by_cases hp : Int.emod (Int.fdiv k cols) 2 = 0
  · rw [if_pos hp] at hj
    rw [if_pos hp, ← hj]
    congr 1
    ring
  · rw [if_neg hp] at hj
    rw [if_neg hp, ← hj]
    congr 1
    ring

/-- Helper: the vertical round trip, stated like roundtrip_horizontal. -/
theorem roundtrip_vertical (rows cols k i j : Int)
    (h : calculate_matrix_index k rows cols (some "vertical") = some (i, j)) :
    calculate_flattened_index i j rows cols (some "vertical") = Except.ok k := by
  simp only [calculate_matrix_index, Option.some.injEq, Prod.mk.injEq,
    String.reduceEq, reduceCtorEq, reduceIte] at h
  obtain ⟨hi, hj⟩ := h
  simp only [calculate_flattened_index, Option.some.injEq, String.reduceEq,
    reduceCtorEq, reduceIte]
  subst hj
  by_cases hp : Int.emod (Int.fdiv k rows) 2 = 0
  · rw [if_pos hp] at hi
    rw [if_pos hp, ← hi]
    congr 1
    ring
  · rw [if_neg hp] at hi
    rw [if_neg hp, ← hi]
    congr 1
    ring

/-- Claim C1: for rows, cols at least 1, direction horizontal or vertical,
and 0 <= k < rows*cols, feeding the pair produced by calculate_matrix_index
back into calculate_flattened_index with the same rows, cols and direction
yields k again. -/
theorem C1_roundtrip (rows cols k : Int) (dir : String)
    (hrows : 1 ≤ rows) (hcols : 1 ≤ cols)
    (hdir : dir = "horizontal" ∨ dir = "vertical")
    (hk0 : 0 ≤ k) (hk : k < rows * cols) (i j : Int)
    (h : calculate_matrix_index k rows cols (some dir) = some (i, j)) :
    calculate_flattened_index i j rows cols (some dir) = Except.ok k := by
  rcases hdir with hd | hd
  · subst hd
    exact roundtrip_horizontal rows cols k i j h
  · subst hd
    exact roundtrip_vertical rows cols k i j h

/-- Witness for C1_roundtrip at rows = 2, cols = 3, k = 4, horizontal. -/
theorem C1_roundtrip_witness :
    calculate_flattened_index 1 1 2 3 (some "horizontal") = Except.ok 4 :=
  C1_roundtrip 2 3 4 "horizontal" (by decide) (by decide) (Or.inl rfl)
    (by decide) (by decide) 1 1 (by decide)

/-- Claim C6: with pattern None, calculate_flattened_index uses the
parameter named num_rows in the source signature as the row stride (and not
the parameter named num_cols), with no serpentine reversal for any parity
of the row index: the result is always y * num_rows + x. -/
theorem C6_none_mode_stride (y x num_cols num_rows : Int) :
    calculate_flattened_index y x num_cols num_rows none =
      Except.ok (y * num_rows + x) := by
  unfold calculate_flattened_index
  simp

/-- Claim C10: for every direction value other than horizontal and vertical,
calculate_matrix_index returns no coordinate pair at all (none, the fall
off the end of the Python function), raising nothing; only
calculate_flattened_index rejects an unknown direction with an error, while
it accepts the None direction. -/
theorem C10_unknown_direction (k M N y x nc nr : Int) (p : Option String)
    (h1 : p ≠ some "horizontal") (h2 : p ≠ some "vertical") :
    calculate_matrix_index k M N p = none ∧
    (p ≠ none → calculate_flattened_index y x nc nr p =
      Except.error "Invalid pattern specified") ∧
    (p = none → calculate_flattened_index y x nc nr p =
      Except.ok (y * nr + x)) := by
  refine ⟨?_, ?_, ?_⟩
  · unfold calculate_matrix_index
    rw [if_neg h1, if_neg h2]
  · intro h3
    unfold calculate_flattened_index
    rw [if_neg h1, if_neg h2, if_neg h3]
  · intro h3
    subst h3
    unfold calculate_flattened_index
    simp

/-- Witness for C10_unknown_direction at the concrete direction "diagonal". -/
theorem C10_unknown_direction_witness :
    calculate_matrix_index 5 2 3 (some "diagonal") = none ∧
    (some "diagonal" ≠ (none : Option String) →
      calculate_flattened_index 0 1 2 3 (some "diagonal") =
        Except.error "Invalid pattern specified") ∧
    (some "diagonal" = (none : Option String) →
      calculate_flattened_index 0 1 2 3 (some "diagonal") =
        Except.ok (0 * 3 + 1)) :=
  C10_unknown_direction 5 2 3 0 1 2 3 (some "diagonal") (by decide) (by decide)

/-- Counterexample to claim C8 as stated: at rows = 2, cols = 2 and the out
of range index k = 4 = rows*cols, calculate_matrix_index does not fail; it
returns the pair (2, 0), whose row index lies outside the grid. -/
theorem C8_counterexample :
    calculate_matrix_index 4 2 2 (some "horizontal") = some (2, 0) := by
  decide

/-- Claim C8 amended: calculate_matrix_index performs no range validation at
all.  For every k (in range or not) and a recognized direction it returns
some coordinate pair; it never signals an OutOfRange error. -/
theorem C8_amended_no_validation (k M N : Int) (dir : String)
    (hdir : dir = "horizontal" ∨ dir = "vertical") :
    ∃ i j, calculate_matrix_index k M N (some dir) = some (i, j) := by
  rcases hdir with hd | hd <;> subst hd <;>
    simp [calculate_matrix_index]

/-- Witness for C8_amended_no_validation at k = -1, M = 2, N = 2. -/
theorem C8_amended_no_validation_witness :
    ∃ i j, calculate_matrix_index (-1) 2 2 (some "horizontal") = some (i, j) :=
  C8_amended_no_validation (-1) 2 2 "horizontal" (Or.inl rfl)

/-- Embedding of the start and end points of a row segment of a raster
definition (the x and y keys of the nested dictionaries). -/
structure RasterPoint where
  x : Int
  y : Int
deriving DecidableEq

/-- Embedding of one entry of the rowDefs list of a raster definition. -/
structure RowDef where
  start : RasterPoint
  «end» : RasterPoint
  numsteps : Int
deriving DecidableEq

/-- Embedding of a raster definition dictionary: only the rowDefs key is
read by the code under study. -/
structure RasterDef where
  rowDefs : List RowDef
deriving DecidableEq

/-- Embedding of determine_raster_shape from src/utils/raster.py.  The
Python subscript rowDefs[0] raises an IndexError on an empty list, modelled
by none; no other failure is possible, since the typed structure replaces
the dictionary lookups. -/
def determine_raster_shape (raster_def : RasterDef) : Option (String × Int × Int) :=
  match raster_def.rowDefs with
  | [] => none
  | rd :: _ =>
    let raster_dir := if rd.start.y = rd.«end».y then "horizontal" else "vertical"
    let num_rows : Int := raster_def.rowDefs.length
    let num_cols : Int := rd.numsteps
    if raster_dir = "vertical" then some (raster_dir, num_cols, num_rows)
    else some (raster_dir, num_rows, num_cols)

/-- Embedding of get_raster_max_col from src/utils/raster.py.  The tuple
unpacking of a None result of calculate_matrix_index would raise a
TypeError, modelled by none (that path is unreachable because
determine_raster_shape only produces recognized directions). -/
def get_raster_max_col (raster_def : RasterDef) (max_index : Int) : Option Int :=
  match determine_raster_shape raster_def with
  | some (raster_dir, num_rows, num_cols) =>
    match calculate_matrix_index max_index num_rows num_cols (some raster_dir) with
    | some (_, j) => some j
    | none => none
  | none => none

/-- Extracts the value of an ok result, with a default for the error case.
Used to embed list appends of calculate_flattened_index results; the error
case is unreachable in the embedded caller because the direction is always
one of the two recognized strings. -/
def okD (e : Except String Int) (d : Int) : Int :=
  match e with
  | Except.ok v => v
  | Except.error _ => d

/-- Embedding of get_flattened_indices_of_max_col from src/utils/raster.py.
The Python loop for i in range(num_rows) appends
calculate_flattened_index(i, max_col, num_rows, num_cols, raster_dir). -/
def get_flattened_indices_of_max_col (raster_def : RasterDef) (max_col : Int) :
    Option (List Int) :=
  match determine_raster_shape raster_def with
  | some (raster_dir, num_rows, num_cols) =>
    some ((List.range num_rows.toNat).map fun (i : Nat) =>
      okD (calculate_flattened_index (i : Int) max_col num_rows num_cols
        (some raster_dir)) 0)
  | none => none

/-- Counterexample to claim C9 as stated: a raster definition whose single
segment has numsteps = 0 (less than 1) is not rejected;
determine_raster_shape returns a shape with zero columns. -/
theorem C9_counterexample :
    determine_raster_shape
        (RasterDef.mk [RowDef.mk (RasterPoint.mk 0 0) (RasterPoint.mk 5 0) 0]) =
      some ("horizontal", 1, 0) ∧
    ∀ r ∈ (RasterDef.mk
        [RowDef.mk (RasterPoint.mk 0 0) (RasterPoint.mk 5 0) 0]).rowDefs,
      r.numsteps < 1 := by
  constructor
  · rfl
  · intro r hr
    simp only [List.mem_singleton] at hr
    subst hr
    decide

/-- Claim C9 amended: determine_raster_shape fails (by the list subscript,
not by a typed MalformedRaster error) exactly when the rowDefs list is
empty; a first segment with numsteps less than 1 is not rejected and
produces a shape whose steps dimension is that non-positive numsteps. -/
theorem C9_amended_failure_iff_empty (raster_def : RasterDef) :
    determine_raster_shape raster_def = none ↔ raster_def.rowDefs = [] := by
  rcases h : raster_def.rowDefs with _ | ⟨rd, rest⟩
  · simp [determine_raster_shape, h]
  · simp only [determine_raster_shape, h]
    constructor
    · intro hc
      by_cases hy : rd.start.y = rd.«end».y <;> simp [hy] at hc
    · intro hc
      exact absurd hc (by simp)

/-- Maximum entry of a flattened matrix, as numpy max computes it on a
non-empty array.  The empty case (on which numpy raises) is given the
value 0; no claim is settled on that case. -/
def listMax : List Int → Int
  | [] => 0
  | v :: rest => rest.foldl max v

/-- Scans the list for the index of the first maximum, carrying the running
position, best index and best value; the strict comparison keeps the first
occurrence, as numpy argmax does. -/
def argmaxAux : List Int → Nat → Nat → Int → Nat
  | [], _, best, _ => best
  | v :: rest, idx, best, bestv =>
    if bestv < v then argmaxAux rest (idx + 1) idx v
    else argmaxAux rest (idx + 1) best bestv

/-- Embedding of np.argmax on the flattened (row-major) array: index of the
first occurrence of the maximum. -/
def npArgmax : List Int → Nat
  | [] => 0
  | v :: rest => argmaxAux rest 1 0 v

/-- Embedding of the slice assignment
arr_work[max(i-1, 0):i+2, max(j-1, 0):j+2] = 0 of peakfind_maxburn: every
cell whose row lies in [max(i-1,0), i+2) and column in [max(j-1,0), j+2)
becomes 0 (numpy clamps the upper ends at the array bounds; truncated Nat
subtraction renders the max with 0). -/
def burn (arr : List (List Int)) (i j : Nat) : List (List Int) :=
  (List.range arr.length).map fun r =>
    (List.range ((arr.getD r []).length)).map fun c =>
      if i - 1 ≤ r ∧ r < i + 2 ∧ j - 1 ≤ c ∧ c < j + 2 then 0
      else (arr.getD r []).getD c 0

/-- Embedding of the while loop of peakfind_maxburn.  The Python loop runs
while arr_work.max() != 0 and iterate <= num_iter, with iterate counting up
from 1, hence at most num_iter passes: the remaining pass budget is the
fuel argument, so the loop body recurses on fuel.  np.argmax flattens in
row-major order (List.flatten) and np.unravel_index divides by the column
count, read off the first row as numpy reads the shape. -/
def peakfind_loop : Nat → List (List Int) → List (Nat × Nat) →
    List (Nat × Nat) × List (List Int)
  | 0, arr, indices => (indices, arr)
  | fuel + 1, arr, indices =>
    if listMax arr.flatten ≠ 0 then
      let f := npArgmax arr.flatten
      let i := f / (arr.getD 0 []).length
      let j := f % (arr.getD 0 []).length
      peakfind_loop fuel (burn arr i j) (indices ++ [(i, j)])
    else (indices, arr)

/-- Embedding of peakfind_maxburn from src/utils/raster.py: iterate starts
at 1, so the pass budget is num_iter. -/
def peakfind_maxburn (array : List (List Int)) (num_iter : Nat) :
    List (Nat × Nat) × List (List Int) :=
  peakfind_loop num_iter array []

/-- Claim C3: on the matrix [[1,9,2],[3,4,5],[6,0,8]] with max_iterations 2,
peakfind_maxburn returns exactly the peak list [(0,1), (2,2)], in that
order. -/
theorem C3_worked_example :
    (peakfind_maxburn [[1, 9, 2], [3, 4, 5], [6, 0, 8]] 2).1 =
      [(0, 1), (2, 2)] := by
  decide

/-- Helper: reading a map over List.range at an in-range position gives the
function value there. -/
theorem getD_range_map {β : Type} (d : β) (f : Nat → β) {n i : Nat} (h : i < n) :
    ((List.range n).map f).getD i d = f i := by
  simp [List.getD_eq_getElem?_getD, List.getElem?_map, List.getElem?_range h]

/-- Helper: an in-range getD value is a member of the list. -/
theorem getD_mem_of_lt {β : Type} (l : List β) (d : β) {i : Nat}
    (h : i < l.length) : l.getD i d ∈ l := by
  rw [List.getD_eq_getElem?_getD, List.getElem?_eq_getElem h]
  exact List.getElem_mem h

/-- Helper: the scan of argmaxAux either keeps the incoming best index with
its value already maximal, or lands on a position of the scanned list
holding the running maximum. -/
theorem argmaxAux_spec (l : List Int) : ∀ (idx best : Nat) (bestv : Int),
    (argmaxAux l idx best bestv = best ∧ l.foldl max bestv = bestv) ∨
    (idx ≤ argmaxAux l idx best bestv ∧
     argmaxAux l idx best bestv - idx < l.length ∧
     l.getD (argmaxAux l idx best bestv - idx) 0 = l.foldl max bestv) := by
  induction l with
  | nil =>
    intro idx best bestv
    left
    exact ⟨rfl, rfl⟩
  | cons v rest ih =>
    intro idx best bestv
    simp only [argmaxAux, List.foldl_cons]
    by_cases hc : bestv < v
    · rw [if_pos hc]
      have hmax : max bestv v = v := max_eq_right (le_of_lt hc)
      rw [hmax]
      rcases ih (idx + 1) idx v with ⟨h1, h2⟩ | ⟨h1, h2, h3⟩
    
      · right
        rw [h1]
        refine ⟨le_refl idx, by simp, ?_⟩
        simp [h2]
      · right
        refine ⟨by omega, by simp only [List.length_cons]; omega, ?_⟩
        have hsub : argmaxAux rest (idx + 1) idx v - idx =
            (argmaxAux rest (idx + 1) idx v - (idx + 1)) + 1 := by omega
        rw [hsub, List.getD_cons_succ, h3]
    · rw [if_neg hc]
      have hmax : max bestv v = bestv := max_eq_left (le_of_not_lt hc)
      rw [hmax]
      rcases ih (idx + 1) best bestv with ⟨h1, h2⟩ | ⟨h1, h2, h3⟩
      · left
        exact ⟨h1, h2⟩
      · right
        refine ⟨by omega, by simp only [List.length_cons]; omega, ?_⟩
        have hsub : argmaxAux rest (idx + 1) best bestv - idx =
            (argmaxAux rest (idx + 1) best bestv - (idx + 1)) + 1 := by omega
        rw [hsub, List.getD_cons_succ, h3]

/-- Helper: np.argmax of a non-empty list lands inside the list. -/
theorem npArgmax_lt (l : List Int) (h : l ≠ []) : npArgmax l < l.length := by
  match l with
  | [] => exact absurd rfl h
  | v :: rest =>
    simp only [npArgmax]
    rcases argmaxAux_spec rest 1 0 v with ⟨h1, _⟩ | ⟨_, h2, _⟩
    · rw [h1]
      simp
    · simp only [List.length_cons]
      omega

/-- Helper: the list value at np.argmax is the maximum of the list. -/
theorem getD_npArgmax (l : List Int) (h : l ≠ []) :
    l.getD (npArgmax l) 0 = listMax l := by
  match l with
  | [] => exact absurd rfl h
  | v :: rest =>
    simp only [npArgmax, listMax]
    rcases argmaxAux_spec rest 1 0 v with ⟨h1, h2⟩ | ⟨h1, h2, h3⟩
    · rw [h1, List.getD_cons_zero, h2]
    · have hsub : argmaxAux rest 1 0 v = (argmaxAux rest 1 0 v - 1) + 1 := by omega
      rw [hsub, List.getD_cons_succ, h3]

/-- Helper: the flattened length of a rectangular matrix. -/
theorem flatten_length_rect (arr : List (List Int)) (C : Nat)
    (h : ∀ row ∈ arr, row.length = C) : arr.flatten.length = arr.length * C := by
  induction arr with
  | nil => simp
  | cons row rest ih =>
    simp only [List.flatten_cons, List.length_append, List.length_cons]
    rw [h row (by simp), ih (fun r hr => h r (by simp [hr]))]
    ring

/-- Helper: row-major indexing into the flattening of a rectangular
matrix. -/
theorem flatten_getD_rect (arr : List (List Int)) (C : Nat)
    (h : ∀ row ∈ arr, row.length = C) :
    ∀ (i j : Nat), i < arr.length → j < C →
      arr.flatten.getD (i * C + j) 0 = (arr.getD i []).getD j 0 := by
  induction arr with
  | nil =>
    intro i j hi
    simp at hi
  | cons row rest ih =>
    intro i j hi hj
    have hrow : row.length = C := h row (by simp)
    cases i with
    | zero =>
      simp only [List.flatten_cons, Nat.zero_mul, Nat.zero_add, List.getD_cons_zero]
      rw [List.getD_eq_getElem?_getD, List.getElem?_append_left (by omega),
        ← List.getD_eq_getElem?_getD]
    | succ n =>
      simp only [List.flatten_cons, List.getD_cons_succ]
      have harith : (n + 1) * C + j = row.length + (n * C + j) := by
        rw [hrow]
        ring
      rw [harith, List.getD_eq_getElem?_getD, List.getElem?_append_right (by omega),
        ← List.getD_eq_getElem?_getD]
      simp only [Nat.add_sub_cancel_left]
      exact ih (fun r hr => h r (by simp [hr])) n j (by simpa using hi) hj

/-- Helper: burning keeps the number of rows. -/
theorem burn_length (arr : List (List Int)) (i j : Nat) :
    (burn arr i j).length = arr.length := by
  simp [burn]

/-- Helper: burning keeps the length of every row. -/
theorem burn_row_length (arr : List (List Int)) (i j : Nat) {r : Nat}
    (hr : r < arr.length) :
    ((burn arr i j).getD r []).length = (arr.getD r []).length := by
  rw [burn, getD_range_map _ _ hr]
  simp

/-- Helper: the value of a cell after burning; cells of the clamped 3 by 3
block become 0 and the others are unchanged. -/
theorem burn_getD (arr : List (List Int)) (i j : Nat) {r c : Nat}
    (hr : r < arr.length) (hc : c < (arr.getD r []).length) :
    ((burn arr i j).getD r []).getD c 0 =
      if i - 1 ≤ r ∧ r < i + 2 ∧ j - 1 ≤ c ∧ c < j + 2 then 0
      else (arr.getD r []).getD c 0 := by
  rw [burn, getD_range_map _ _ hr, getD_range_map _ _ hc]

/-- Helper: burning keeps rectangularity. -/
theorem burn_rect (arr : List (List Int)) (C i j : Nat)
    (h : ∀ row ∈ arr, row.length = C) :
    ∀ row ∈ burn arr i j, row.length = C := by
  intro row hrow
  simp only [burn, List.mem_map, List.mem_range] at hrow
  obtain ⟨r, hr, rfl⟩ := hrow
  simp only [List.length_map, List.length_range]
  exact h _ (getD_mem_of_lt arr [] hr)

/-- Distance of two Nat coordinates: the absolute difference, written with
truncated subtraction so that omega can reason about it directly. -/
def sep (a b : Nat) : Nat := (a - b) + (b - a)

/-- The non-adjacency relation of claim C4: the two coordinate pairs differ
by at least 2 in the row index or in the column index. -/
def cheb2 (p q : Nat × Nat) : Prop := 2 ≤ sep p.1 q.1 ∨ 2 ≤ sep p.2 q.2

/-- A recorded peak whose whole in-bounds 8-connected neighborhood
(including the cell itself) holds 0 in the working matrix. -/
def burned (arr : List (List Int)) (p : Nat × Nat) : Prop :=
  ∀ r c, r < arr.length → c < (arr.getD r []).length →
    sep r p.1 ≤ 1 → sep c p.2 ≤ 1 → (arr.getD r []).getD c 0 = 0

/-- Helper: a non-zero maximum forces a non-empty matrix with positive row
length. -/
theorem rect_pos_of_max_ne (arr : List (List Int)) (C : Nat)
    (hrect : ∀ row ∈ arr, row.length = C) (h : listMax arr.flatten ≠ 0) :
    arr ≠ [] ∧ 0 < C ∧ (arr.getD 0 []).length = C := by
  have hfl : arr.flatten ≠ [] := by
    intro he
    rw [he] at h
    exact h rfl
  obtain ⟨x, hx⟩ := List.exists_mem_of_ne_nil _ hfl
  obtain ⟨row, hrow, hxrow⟩ := List.mem_flatten.1 hx
  have hC : 0 < C := by
    have h1 := hrect row hrow
    have h2 : 0 < row.length := List.length_pos.2 (by rintro rfl; simp at hxrow)
    omega
  have hne : arr ≠ [] := by rintro rfl; exact hfl rfl
  refine ⟨hne, hC, ?_⟩
  exact hrect _ (getD_mem_of_lt arr [] (List.length_pos.2 hne))

/-- Helper: the one-step unfolding of peakfind_loop when the maximum is
non-zero. -/
theorem peakfind_loop_succ (fuel : Nat) (arr : List (List Int))
    (acc : List (Nat × Nat)) (h : listMax arr.flatten ≠ 0) :
    peakfind_loop (fuel + 1) arr acc =
      peakfind_loop fuel
        (burn arr (npArgmax arr.flatten / (arr.getD 0 []).length)
          (npArgmax arr.flatten % (arr.getD 0 []).length))
        (acc ++ [(npArgmax arr.flatten / (arr.getD 0 []).length,
          npArgmax arr.flatten % (arr.getD 0 []).length)]) := by
  simp only [peakfind_loop]
  rw [if_pos h]

/-- Helper: the one-step unfolding of peakfind_loop when the maximum is
zero: the loop stops. -/
theorem peakfind_loop_stop (fuel : Nat) (arr : List (List Int))
    (acc : List (Nat × Nat)) (h : ¬listMax arr.flatten ≠ 0) :
    peakfind_loop (fuel + 1) arr acc = (acc, arr) := by
  simp only [peakfind_loop]
  rw [if_neg h]

/-- Helper: sep is symmetric. -/
theorem sep_comm (a b : Nat) : sep a b = sep b a := by
  simp only [sep]
  omega

/-- Master invariant of the burn loop: if every already recorded peak is in
bounds, mutually non-adjacent, and has a fully burned (all zero)
neighborhood in the working matrix, then the final peak list is mutually
non-adjacent and in bounds.  The key step: a newly selected cell carries
the non-zero maximum, so it cannot lie in the burned neighborhood of any
earlier peak. -/
theorem peakfind_loop_invariant (C : Nat) :
    ∀ (fuel : Nat) (arr : List (List Int)) (acc : List (Nat × Nat)),
    (∀ row ∈ arr, row.length = C) →
    (∀ p ∈ acc, p.1 < arr.length ∧ p.2 < C) →
    (∀ p ∈ acc, burned arr p) →
    acc.Pairwise cheb2 →
    (peakfind_loop fuel arr acc).1.Pairwise cheb2 ∧
    ∀ p ∈ (peakfind_loop fuel arr acc).1, p.1 < arr.length ∧ p.2 < C := by
  intro fuel
  induction fuel with
  | zero =>
    intro arr acc hrect hbnd hburn hpw
    exact ⟨hpw, hbnd⟩
  | succ fuel ih =>
    intro arr acc hrect hbnd hburn hpw
    by_cases hmax : listMax arr.flatten ≠ 0
    · obtain ⟨hne, hC, hC0⟩ := rect_pos_of_max_ne arr C hrect hmax
      rw [peakfind_loop_succ fuel arr acc hmax, hC0]
      set f := npArgmax arr.flatten with hfdef
      set i := f / C with hidef
      set j := f % C with hjdef
      have hflne : arr.flatten ≠ [] := by
        intro he
        rw [he] at hmax
        exact hmax rfl
      have hflen : arr.flatten.length = arr.length * C :=
        flatten_length_rect arr C hrect
      have hf : f < arr.length * C := hflen ▸ npArgmax_lt _ hflne
      have hi : i < arr.length := (Nat.div_lt_iff_lt_mul hC).2 hf
      have hj : j < C := Nat.mod_lt _ hC
      have hrowlen : (arr.getD i []).length = C :=
        hrect _ (getD_mem_of_lt arr [] hi)
      have harith : i * C + j = f := by
        rw [hidef, hjdef, Nat.mul_comm]
        exact Nat.div_add_mod f C
      have hval : (arr.getD i []).getD j 0 = listMax arr.flatten := by
        rw [← flatten_getD_rect arr C hrect i j hi hj, harith]
        exact getD_npArgmax _ hflne
      have hvne : (arr.getD i []).getD j 0 ≠ 0 := by
        rw [hval]
        exact hmax
      have hstep : ∀ p ∈ acc, cheb2 p (i, j) := by
        intro p hp
        by_contra hnc
        simp only [cheb2, not_or, not_le] at hnc
        obtain ⟨h1, h2⟩ := hnc
        have hs1 : sep i p.1 ≤ 1 := by
          rw [sep_comm]
          omega
        have hs2 : sep j p.2 ≤ 1 := by
          rw [sep_comm]
          omega
        exact hvne (hburn p hp i j hi (by rw [hrowlen]; exact hj) hs1 hs2)
      have hrect' := burn_rect arr C i j hrect
      have hbnd' : ∀ p ∈ acc ++ [(i, j)], p.1 < (burn arr i j).length ∧ p.2 < C := by
        intro p hp
        rw [burn_length]
        rcases List.mem_append.1 hp with h | h
        · exact hbnd p h
        · rw [List.mem_singleton] at h
          subst h
          exact ⟨hi, hj⟩
      have hburn' : ∀ p ∈ acc ++ [(i, j)], burned (burn arr i j) p := by
        intro p hp r c hr hc hs1 hs2
        rw [burn_length] at hr
        rw [burn_row_length arr i j hr] at hc
        rw [burn_getD arr i j hr hc]
        rcases List.mem_append.1 hp with h | h
        · split
          · rfl
          · exact hburn p h r c hr hc hs1 hs2
        · rw [List.mem_singleton] at h
          subst h
          have hcond : i - 1 ≤ r ∧ r < i + 2 ∧ j - 1 ≤ c ∧ c < j + 2 := by
            simp only [sep] at hs1 hs2
            omega
          rw [if_pos hcond]
      have hpw' : (acc ++ [(i, j)]).Pairwise cheb2 := by
        rw [List.pairwise_append]
        refine ⟨hpw, List.pairwise_singleton .., ?_⟩
        intro a ha b hb
        rw [List.mem_singleton] at hb
        subst hb
        exact hstep a ha
      have happly := ih (burn arr i j) (acc ++ [(i, j)]) hrect' hbnd' hburn' hpw'
      refine ⟨happly.1, ?_⟩
      intro p hp
      have hres := happly.2 p hp
      rwa [burn_length] at hres
    · rw [peakfind_loop_stop fuel arr acc hmax]
      exact ⟨hpw, hbnd⟩

/-- Claim C4: any two coordinates in the peak list returned by
peakfind_maxburn differ by at least 2 in the row index or in the column
index (so the peaks are pairwise distinct and no later peak lies in the
8-connected neighborhood of an earlier one), for every rectangular input
matrix and every iteration bound. -/
theorem C4_peak_non_adjacency (array : List (List Int)) (num_iter C : Nat)
    (hrect : ∀ row ∈ array, row.length = C) :
    (peakfind_maxburn array num_iter).1.Pairwise cheb2 :=
  (peakfind_loop_invariant C num_iter array [] hrect (by simp) (by simp)
    List.Pairwise.nil).1

/-- Witness for C4_peak_non_adjacency on the concrete worked matrix. -/
theorem C4_peak_non_adjacency_witness :
    (peakfind_maxburn [[1, 9, 2], [3, 4, 5], [6, 0, 8]] 2).1.Pairwise cheb2 :=
  C4_peak_non_adjacency [[1, 9, 2], [3, 4, 5], [6, 0, 8]] 2 3 (by decide)

/-- Helper: each loop pass appends exactly one peak, so the result gains at
most fuel entries. -/
theorem peakfind_loop_length : ∀ (fuel : Nat) (arr : List (List Int))
    (acc : List (Nat × Nat)),
    (peakfind_loop fuel arr acc).1.length ≤ acc.length + fuel := by
  intro fuel
  induction fuel with
  | zero =>
    intro arr acc
    simp [peakfind_loop]
  | succ fuel ih =>
    intro arr acc
    by_cases hmax : listMax arr.flatten ≠ 0
    · rw [peakfind_loop_succ fuel arr acc hmax]
      have h := ih (burn arr (npArgmax arr.flatten / (arr.getD 0 []).length)
          (npArgmax arr.flatten % (arr.getD 0 []).length))
        (acc ++ [(npArgmax arr.flatten / (arr.getD 0 []).length,
          npArgmax arr.flatten % (arr.getD 0 []).length)])
      simp only [List.length_append, List.length_singleton] at h
      omega
    · rw [peakfind_loop_stop fuel arr acc hmax]
      simp

/-- Helper: non-adjacent coordinate pairs are distinct. -/
theorem cheb2_ne {p q : Nat × Nat} (h : cheb2 p q) : p ≠ q := by
  rintro rfl
  simp [cheb2, sep] at h

/-- Helper: a fold of max over zeros starting from zero stays zero. -/
theorem foldl_max_zero : ∀ (l : List Int) (a : Int),
    (∀ x ∈ l, x = 0) → a = 0 → l.foldl max a = 0 := by
  intro l
  induction l with
  | nil =>
    intro a _ ha
    exact ha
  | cons v rest ih =>
    intro a h ha
    simp only [List.foldl_cons]
    refine ih (max a v) (fun x hx => h x (by simp [hx])) ?_
    rw [ha, h v (by simp)]
    simp

/-- Helper: the maximum of an all-zero list is zero. -/
theorem listMax_all_zero (l : List Int) (h : ∀ x ∈ l, x = 0) :
    listMax l = 0 := by
  match l with
  | [] => rfl
  | v :: rest =>
    simp only [listMax]
    exact foldl_max_zero rest v (fun x hx => h x (by simp [hx]))
      (h v (by simp))

/-- Claim C5: peakfind_maxburn terminates (it is a total function whose
loop runs at most num_iter passes, matching iterate counting 1..num_iter)
and returns at most min(num_iter, rows*cols) peaks on a rectangular matrix;
on an all-zero matrix it returns no peak at all, for every iteration
bound. -/
theorem C5_termination_bound (array : List (List Int)) (num_iter C : Nat)
    (hrect : ∀ row ∈ array, row.length = C) :
    (peakfind_maxburn array num_iter).1.length ≤
      min num_iter (array.length * C) ∧
    ((∀ row ∈ array, ∀ x ∈ row, x = 0) →
      (peakfind_maxburn array num_iter).1 = []) := by
  constructor
  · refine le_min ?_ ?_
    · have h := peakfind_loop_length num_iter array []
      simpa using h
    · have hinv := peakfind_loop_invariant C num_iter array [] hrect
        (by simp) (by simp) List.Pairwise.nil
      have hnd : (peakfind_maxburn array num_iter).1.Nodup :=
        hinv.1.imp cheb2_ne
      have hsub : (peakfind_maxburn array num_iter).1.toFinset ⊆
          Finset.range array.length ×ˢ Finset.range C := by
        intro p hp
        rw [List.mem_toFinset] at hp
        have hb := hinv.2 p hp
        simp only [Finset.mem_product, Finset.mem_range]
        exact hb
      have hcard := Finset.card_le_card hsub
      rw [List.toFinset_card_of_nodup hnd] at hcard
      simpa [Finset.card_product, Finset.card_range] using hcard
  · intro hz
    have hmz : listMax array.flatten = 0 := by
      apply listMax_all_zero
      intro x hx
      obtain ⟨row, hrow, hxr⟩ := List.mem_flatten.1 hx
      exact hz row hrow x hxr
    cases num_iter with
    | zero => rfl
    | succ n =>
      show (peakfind_loop (n + 1) array []).1 = []
      rw [peakfind_loop_stop n array [] (by simp [hmz])]

/-- Witness for C5_termination_bound on the concrete worked matrix. -/
theorem C5_termination_bound_witness :
    (peakfind_maxburn [[1, 9, 2], [3, 4, 5], [6, 0, 8]] 2).1.length ≤
      min 2 (([[1, 9, 2], [3, 4, 5], [6, 0, 8]] : List (List Int)).length * 3) ∧
    ((∀ row ∈ ([[1, 9, 2], [3, 4, 5], [6, 0, 8]] : List (List Int)),
        ∀ x ∈ row, x = 0) →
      (peakfind_maxburn [[1, 9, 2], [3, 4, 5], [6, 0, 8]] 2).1 = []) :=
  C5_termination_bound [[1, 9, 2], [3, 4, 5], [6, 0, 8]] 2 3 (by decide)

/-- Cell read of a list-of-lists matrix, with the default entry at
out-of-range positions (only in-range cells are the subject of any
claim). -/
def mget {α : Type} [Inhabited α] (m : List (List α)) (i j : Nat) : α :=
  (m.getD i []).getD j default

/-- Embedding of np.array(flattened).reshape(r, c): entry (i, j) is element
i*c + j of the flat list (row-major order, as numpy stores it). -/
def npReshape {α : Type} [Inhabited α] (flattened : List α) (r c : Nat) :
    List (List α) :=
  (List.range r).map fun i => (List.range c).map fun j =>
    flattened.getD (i * c + j) default

/-- Embedding of the slice assignment
array_2d[1::2] = np.fliplr(array_2d[1::2]) of create_snake_array: every
odd-indexed row is reversed in place. -/
def fliplr_odd_rows {α : Type} (m : List (List α)) : List (List α) :=
  (List.range m.length).map fun i =>
    if i % 2 = 1 then (m.getD i []).reverse else m.getD i []

/-- Embedding of the numpy transpose array_2d.T of a rectangular matrix:
entry (i, j) of the result is entry (j, i) of the argument; the new row
count is the length of the first row. -/
def npTranspose {α : Type} [Inhabited α] (m : List (List α)) :
    List (List α) :=
  (List.range (m.getD 0 []).length).map fun i =>
    (List.range m.length).map fun j => (m.getD j []).getD i default

/-- Embedding of the slice assignment
array_2d[:, 1::2] = np.flipud(array_2d[:, 1::2]) of create_snake_array: in
every odd-indexed column the rows are flipped top to bottom. -/
def flipud_odd_cols {α : Type} [Inhabited α] (m : List (List α)) :
    List (List α) :=
  (List.range m.length).map fun i =>
    (List.range ((m.getD i []).length)).map fun j =>
      if j % 2 = 1 then (m.getD (m.length - 1 - i) []).getD j default
      else (m.getD i []).getD j default

/-- Embedding of create_snake_array from src/utils/raster.py, composing the
numpy steps exactly as the source does: horizontal reshapes to M rows of N
and reverses odd rows; vertical reshapes to N rows of M, transposes, and
flips odd columns.  An unrecognized raster_type reaches the return with
array_2d unbound (an UnboundLocalError), modelled by none. -/
def create_snake_array {α : Type} [Inhabited α] (flattened : List α)
    (raster_type : String) (M N : Nat) : Option (List (List α)) :=
  if raster_type = "horizontal" then
    some (fliplr_odd_rows (npReshape flattened M N))
  else if raster_type = "vertical" then
    some (flipud_odd_cols (npTranspose (npReshape flattened N M)))
  else none

/-- Helper: getD into a reversed list at an in-range position. -/
theorem getD_reverse {β : Type} (l : List β) (d : β) {n : Nat}
    (h : n < l.length) :
    l.reverse.getD n d = l.getD (l.length - 1 - n) d := by
  rw [List.getD_eq_getElem?_getD, List.getElem?_reverse h,
    ← List.getD_eq_getElem?_getD]

/-- Helper: the Nat-level value of calculate_matrix_index for a horizontal
raster: i = k / N and j = k % N on even rows, N - 1 - k % N on odd rows. -/
theorem matrix_index_horizontal_nat (k M N : Nat) (hN : 0 < N) :
    calculate_matrix_index (k : Int) (M : Int) (N : Int) (some "horizontal") =
      some (((k / N : Nat) : Int),
        ((if (k / N) % 2 = 0 then (k % N : Nat) else (N - 1 - k % N : Nat)) : Int)) := by
  have hfd : Int.fdiv (k : Int) (N : Int) = ((k / N : Nat) : Int) := by
    rw [Int.fdiv_eq_ediv _ (Int.natCast_nonneg N)]
    exact (Int.ofNat_ediv k N).symm
  have hmd : (k : Int) - ((k / N : Nat) : Int) * (N : Int) = ((k % N : Nat) : Int) := by
    have h := Nat.div_add_mod k N
    have : (k : Int) = ((N * (k / N) + k % N : Nat) : Int) := by rw [h]
    rw [this]
    push_cast
    ring
  have hpar : Int.emod ((k / N : Nat) : Int) 2 = (((k / N) % 2 : Nat) : Int) :=
    (Int.ofNat_emod (k / N) 2).symm
  simp only [calculate_matrix_index, String.reduceEq, reduceCtorEq, reduceIte,
    Option.some.injEq, Prod.mk.injEq, hfd, hpar, hmd]
  refine ⟨trivial, ?_⟩
  by_cases hp : (k / N) % 2 = 0
  · rw [if_pos (by exact_mod_cast congrArg (Nat.cast : Nat → Int) hp), if_pos hp]
  · have hne : ¬((((k / N) % 2 : Nat) : Int) = 0) := by
      intro hc
      exact hp (by exact_mod_cast hc)
    rw [if_neg hne, if_neg hp]
    have hlt : k % N < N := Nat.mod_lt _ hN
    omega

/-- Helper: the Nat-level value of calculate_matrix_index for a vertical
raster: j = k / M and i = k % M on even columns, M - 1 - k % M on odd
columns. -/
theorem matrix_index_vertical_nat (k M N : Nat) (hM : 0 < M) :
    calculate_matrix_index (k : Int) (M : Int) (N : Int) (some "vertical") =
      some (((if (k / M) % 2 = 0 then (k % M : Nat) else (M - 1 - k % M : Nat)) : Int),
        ((k / M : Nat) : Int)) := by
  have hfd : Int.fdiv (k : Int) (M : Int) = ((k / M : Nat) : Int) := by
    rw [Int.fdiv_eq_ediv _ (Int.natCast_nonneg M)]
    exact (Int.ofNat_ediv k M).symm
  have hmd : (k : Int) - ((k / M : Nat) : Int) * (M : Int) = ((k % M : Nat) : Int) := by
    have h := Nat.div_add_mod k M
    have : (k : Int) = ((M * (k / M) + k % M : Nat) : Int) := by rw [h]
    rw [this]
    push_cast
    ring
  have hpar : Int.emod ((k / M : Nat) : Int) 2 = (((k / M) % 2 : Nat) : Int) :=
    (Int.ofNat_emod (k / M) 2).symm
  simp only [calculate_matrix_index, String.reduceEq, reduceCtorEq, reduceIte,
    Option.some.injEq, Prod.mk.injEq, hfd, hpar, hmd]
  refine ⟨?_, trivial⟩
  by_cases hp : (k / M) % 2 = 0
  · rw [if_pos (by exact_mod_cast congrArg (Nat.cast : Nat → Int) hp), if_pos hp]
  · have hne : ¬((((k / M) % 2 : Nat) : Int) = 0) := by
      intro hc
      exact hp (by exact_mod_cast hc)
    rw [if_neg hne, if_neg hp]
    have hlt : k % M < M := Nat.mod_lt _ hM
    omega

/-- Helper: the reshape of a flat list has the requested row count. -/
theorem npReshape_length {α : Type} [Inhabited α] (f : List α) (r c : Nat) :
    (npReshape f r c).length = r := by
  simp [npReshape]

/-- Helper: an in-range row of the reshape reads the flat list at the
row-major offsets. -/
theorem npReshape_getD {α : Type} [Inhabited α] (f : List α) (r c : Nat)
    {i : Nat} (h : i < r) :
    (npReshape f r c).getD i [] =
      (List.range c).map fun j => f.getD (i * c + j) default := by
  rw [npReshape, getD_range_map _ _ h]

/-- Claim C2: for a rectangular grid of M rows and N columns, any direction
horizontal or vertical, and a flat sample list of length M*N, the matrix
built by create_snake_array holds flat[k] at the position (i, j) that
calculate_matrix_index assigns to k, for every k below M*N.  Re-flattening
through calculate_matrix_index therefore recovers the flat list exactly,
each cell being written exactly once (the mapping is a bijection by
C1_roundtrip). -/
theorem C2_reassembly {α : Type} [Inhabited α] (flat : List α) (M N k : Nat)
    (dir : String) (hM : 0 < M) (hN : 0 < N)
    (hdir : dir = "horizontal" ∨ dir = "vertical")
    (hlen : flat.length = M * N) (hk : k < M * N) (i j : Int)
    (hmi : calculate_matrix_index (k : Int) (M : Int) (N : Int) (some dir) =
      some (i, j)) :
    ∃ mat, create_snake_array flat dir M N = some mat ∧
      mget mat i.toNat j.toNat = flat.getD k default := by
  rcases hdir with hd | hd <;> subst hd
  · rw [matrix_index_horizontal_nat k M N hN] at hmi
    simp only [Option.some.injEq, Prod.mk.injEq] at hmi
    obtain ⟨hi, hj⟩ := hmi
    refine ⟨fliplr_odd_rows (npReshape flat M N), by simp [create_snake_array], ?_⟩
    have hq : k / N < M := (Nat.div_lt_iff_lt_mul hN).2 hk
    have hmlt : k % N < N := Nat.mod_lt _ hN
    have harith : k / N * N + k % N = k := by
      rw [Nat.mul_comm (k / N) N]
      exact Nat.div_add_mod k N
    have hitn : i.toNat = k / N := by
      rw [← hi]
      exact Int.toNat_ofNat _
    rw [mget, hitn, fliplr_odd_rows,
      getD_range_map _ _ (by rw [npReshape_length]; exact hq),
      npReshape_getD flat M N hq]
    by_cases hp : (k / N) % 2 = 0
    · rw [if_neg (by omega)]
      rw [if_pos hp] at hj
      have hjtn : j.toNat = k % N := by
        rw [← hj]
        exact Int.toNat_ofNat _
      rw [hjtn, getD_range_map _ _ hmlt, harith]
    · rw [if_pos (by omega)]
      rw [if_neg hp] at hj
      have hjtn : j.toNat = N - 1 - k % N := by
        rw [← hj]
        exact Int.toNat_ofNat _
      have hrl : ((List.range N).map fun j2 =>
          flat.getD (k / N * N + j2) default).length = N := by
        simp
      rw [hjtn, getD_reverse _ _ (by rw [hrl]; omega), hrl,
        show N - 1 - (N - 1 - k % N) = k % N from by omega,
        getD_range_map _ _ hmlt, harith]
  · rw [matrix_index_vertical_nat k M N hM] at hmi
    simp only [Option.some.injEq, Prod.mk.injEq] at hmi
    obtain ⟨hi, hj⟩ := hmi
    refine ⟨flipud_odd_cols (npTranspose (npReshape flat N M)),
      by simp [create_snake_array], ?_⟩
    have hq : k / M < N := (Nat.div_lt_iff_lt_mul hM).2 (Nat.mul_comm M N ▸ hk)
    have hmlt : k % M < M := Nat.mod_lt _ hM
    have hN0 : 0 < N := by
      rcases Nat.eq_zero_or_pos N with h0 | h0
      · subst h0
        simp at hk
      · exact h0
    have harith : k / M * M + k % M = k := by
      rw [Nat.mul_comm (k / M) M]
      exact Nat.div_add_mod k M
    have hm0len : (npReshape flat N M).length = N := npReshape_length flat N M
    have hT0 : ((npReshape flat N M).getD 0 []).length = M := by
      rw [npReshape_getD flat N M hN0]
      simp
    have htlen : (npTranspose (npReshape flat N M)).length = M := by
      rw [npTranspose, hT0]
      simp
    have htrow : ∀ i2, i2 < M →
        (npTranspose (npReshape flat N M)).getD i2 [] =
          (List.range N).map fun j2 =>
            ((npReshape flat N M).getD j2 []).getD i2 default := by
      intro i2 h2
      rw [npTranspose, hT0, getD_range_map _ _ h2, hm0len]
    have htrowlen : ∀ i2, i2 < M →
        ((npTranspose (npReshape flat N M)).getD i2 []).length = N := by
      intro i2 h2
      rw [htrow i2 h2]
      simp
    have hjtn : j.toNat = k / M := by
      rw [← hj]
      exact Int.toNat_ofNat _
    have hcell : ∀ iN, iN < M →
        ((npReshape flat N M).getD (k / M) []).getD iN default =
          flat.getD (k / M * M + iN) default := by
      intro iN hiN
      rw [npReshape_getD flat N M hq, getD_range_map _ _ hiN]
    by_cases hp : (k / M) % 2 = 0
    · rw [if_pos hp] at hi
      have hitn : i.toNat = k % M := by
        rw [← hi]
        exact Int.toNat_ofNat _
      rw [mget, hitn, hjtn, flipud_odd_cols,
        getD_range_map _ _ (by rw [htlen]; exact hmlt),
        htrowlen _ hmlt,
        getD_range_map _ _ hq,
        if_neg (by omega),
        htrow _ hmlt,
        getD_range_map _ _ hq,
        hcell _ hmlt, harith]
    · rw [if_neg hp] at hi
      have hitn : i.toNat = M - 1 - k % M := by
        rw [← hi]
        exact Int.toNat_ofNat _
      have hiNlt : M - 1 - k % M < M := by omega
      rw [mget, hitn, hjtn, flipud_odd_cols,
        getD_range_map _ _ (by rw [htlen]; exact hiNlt),
        htrowlen _ hiNlt,
        getD_range_map _ _ hq,
        if_pos (by omega),
        htlen,
        show M - 1 - (M - 1 - k % M) = k % M from by omega,
        htrow _ hmlt,
        getD_range_map _ _ hq,
        hcell _ hmlt, harith]

/-- Witness for C2_reassembly: the flat list [10,11,12,13,14,15] on a 2 by 3
horizontal raster at k = 4, whose grid position is (1, 1). -/
theorem C2_reassembly_witness :
    ∃ mat, create_snake_array ([10, 11, 12, 13, 14, 15] : List Int)
        "horizontal" 2 3 = some mat ∧
      mget mat (1 : Int).toNat (1 : Int).toNat =
        ([10, 11, 12, 13, 14, 15] : List Int).getD 4 default :=
  C2_reassembly [10, 11, 12, 13, 14, 15] 2 3 4 "horizontal"
    (by decide) (by decide) (Or.inl rfl) (by decide) (by decide) 1 1 (by decide)

/-- Helper: a successful determine_raster_shape yields the direction string
horizontal or vertical, and the dimension taken from the rowDefs count is
at least 1. -/
theorem determine_raster_shape_cases (rd : RasterDef) (dir : String)
    (nr nc : Int) (h : determine_raster_shape rd = some (dir, nr, nc)) :
    (dir = "horizontal" ∧ 1 ≤ nr) ∨ (dir = "vertical" ∧ 1 ≤ nc) := by
  rcases h0 : rd.rowDefs with _ | ⟨rd0, rest⟩
  · unfold determine_raster_shape at h
    rw [h0] at h
    exact absurd h (by simp)
  · unfold determine_raster_shape at h
    rw [h0] at h
    by_cases hy : rd0.start.y = rd0.«end».y
    · simp only [if_pos hy, String.reduceEq, reduceIte, Option.some.injEq,
        Prod.mk.injEq, List.length_cons] at h
      obtain ⟨hdir, hnr, _⟩ := h
      left
      refine ⟨hdir.symm, ?_⟩
      omega
    · simp only [if_neg hy, String.reduceEq, reduceIte, Option.some.injEq,
        Prod.mk.injEq, List.length_cons] at h
      obtain ⟨hdir, _, hnc⟩ := h
      right
      refine ⟨hdir.symm, ?_⟩
      omega

/-- Claim C7: for a raster definition whose shape derivation succeeds and a
linear index k in range for the derived shape, the flattened index list of
the column that get_raster_max_col assigns to k contains k. -/
theorem C7_column_consistency (rd : RasterDef) (k nr nc : Int) (dir : String)
    (hshape : determine_raster_shape rd = some (dir, nr, nc))
    (hk0 : 0 ≤ k) (hk : k < nr * nc) :
    ∃ col, get_raster_max_col rd k = some col ∧
      ∃ l, get_flattened_indices_of_max_col rd col = some l ∧ k ∈ l := by
  have hprod : 0 < nr * nc := lt_of_le_of_lt hk0 hk
  rcases determine_raster_shape_cases rd dir nr nc hshape with ⟨hd, hnr⟩ | ⟨hd, hnc⟩
  · -- horizontal: nr is the rowDefs count
    subst hd
    have hnc : 0 < nc := by
      rcases mul_pos_iff.1 hprod with ⟨_, h2⟩ | ⟨h1, _⟩
      · exact h2
      · omega
    have hm : calculate_matrix_index k nr nc (some "horizontal") =
        some (Int.fdiv k nc,
          if Int.emod (Int.fdiv k nc) 2 = 0 then k - (Int.fdiv k nc * nc)
          else nc - (k - (Int.fdiv k nc * nc)) - 1) := by
      simp only [calculate_matrix_index, Option.some.injEq, String.reduceEq,
        reduceCtorEq, reduceIte]
    have hfd_ed : Int.fdiv k nc = k / nc := Int.fdiv_eq_ediv _ (by omega)
    have hq0 : 0 ≤ Int.fdiv k nc := by
      rw [hfd_ed]
      exact Int.ediv_nonneg hk0 (by omega)
    have hqlt : Int.fdiv k nc < nr := by
      rw [hfd_ed]
      exact (Int.ediv_lt_iff_lt_mul hnc).2 hk
    have hcol : get_raster_max_col rd k =
        some (if Int.emod (Int.fdiv k nc) 2 = 0 then k - (Int.fdiv k nc * nc)
          else nc - (k - (Int.fdiv k nc * nc)) - 1) := by
      unfold get_raster_max_col
      rw [hshape]
      simp only [hm]
    have hflat : get_flattened_indices_of_max_col rd
        (if Int.emod (Int.fdiv k nc) 2 = 0 then k - (Int.fdiv k nc * nc)
          else nc - (k - (Int.fdiv k nc * nc)) - 1) =
        some ((List.range nr.toNat).map fun (i : Nat) =>
          okD (calculate_flattened_index (i : Int)
            (if Int.emod (Int.fdiv k nc) 2 = 0 then k - (Int.fdiv k nc * nc)
              else nc - (k - (Int.fdiv k nc * nc)) - 1) nr nc
            (some "horizontal")) 0) := by
      unfold get_flattened_indices_of_max_col
      rw [hshape]
    refine ⟨_, hcol, _, hflat, ?_⟩
    rw [List.mem_map]
    refine ⟨(Int.fdiv k nc).toNat, ?_, ?_⟩
    · rw [List.mem_range]
      omega
    · have hcast : (((Int.fdiv k nc).toNat : Nat) : Int) = Int.fdiv k nc :=
        Int.toNat_of_nonneg hq0
      rw [hcast, roundtrip_horizontal nr nc k _ _ hm]
      rfl
  · -- vertical: nc is the rowDefs count
    subst hd
    have hnr : 0 < nr := by
      rcases mul_pos_iff.1 hprod with ⟨h1, _⟩ | ⟨_, h2⟩
      · exact h1
      · omega
    have hm : calculate_matrix_index k nr nc (some "vertical") =
        some ((if Int.emod (Int.fdiv k nr) 2 = 0 then k - (Int.fdiv k nr * nr)
          else nr - (k - (Int.fdiv k nr * nr)) - 1), Int.fdiv k nr) := by
      simp only [calculate_matrix_index, Option.some.injEq, String.reduceEq,
        reduceCtorEq, reduceIte]
    have hfd_ed : Int.fdiv k nr = k / nr := Int.fdiv_eq_ediv _ (by omega)
    have hmod : k - Int.fdiv k nr * nr = k % nr := by
      rw [hfd_ed, Int.emod_def]
      ring
    have h1 : 0 ≤ k % nr := Int.emod_nonneg k (by omega)
    have h2 : k % nr < nr := Int.emod_lt_of_pos k hnr
    have hiv : 0 ≤ (if Int.emod (Int.fdiv k nr) 2 = 0 then k - (Int.fdiv k nr * nr)
          else nr - (k - (Int.fdiv k nr * nr)) - 1) ∧
        (if Int.emod (Int.fdiv k nr) 2 = 0 then k - (Int.fdiv k nr * nr)
          else nr - (k - (Int.fdiv k nr * nr)) - 1) < nr := by
      split
      · rw [hmod]
        exact ⟨h1, h2⟩
      · rw [sub_sub, hmod]
        omega
    have hcol : get_raster_max_col rd k = some (Int.fdiv k nr) := by
      unfold get_raster_max_col
      rw [hshape]
      simp only [hm]
    have hflat : get_flattened_indices_of_max_col rd (Int.fdiv k nr) =
        some ((List.range nr.toNat).map fun (i : Nat) =>
          okD (calculate_flattened_index (i : Int) (Int.fdiv k nr) nr nc
            (some "vertical")) 0) := by
      unfold get_flattened_indices_of_max_col
      rw [hshape]
    refine ⟨_, hcol, _, hflat, ?_⟩
    rw [List.mem_map]
    refine ⟨(if Int.emod (Int.fdiv k nr) 2 = 0 then k - (Int.fdiv k nr * nr)
        else nr - (k - (Int.fdiv k nr * nr)) - 1).toNat, ?_, ?_⟩
    · rw [List.mem_range]
      omega
    · have hcast := Int.toNat_of_nonneg hiv.1
      rw [hcast, roundtrip_vertical nr nc k _ _ hm]
      rfl

/-- Witness for C7_column_consistency on a 2-segment horizontal raster of 3
steps per segment at k = 4. -/
theorem C7_column_consistency_witness :
    ∃ col, get_raster_max_col
        (RasterDef.mk [RowDef.mk (RasterPoint.mk 0 0) (RasterPoint.mk 5 0) 3,
          RowDef.mk (RasterPoint.mk 0 1) (RasterPoint.mk 5 1) 3]) 4 = some col ∧
      ∃ l, get_flattened_indices_of_max_col
          (RasterDef.mk [RowDef.mk (RasterPoint.mk 0 0) (RasterPoint.mk 5 0) 3,
            RowDef.mk (RasterPoint.mk 0 1) (RasterPoint.mk 5 1) 3]) col =
        some l ∧ (4 : Int) ∈ l :=
  C7_column_consistency
    (RasterDef.mk [RowDef.mk (RasterPoint.mk 0 0) (RasterPoint.mk 5 0) 3,
      RowDef.mk (RasterPoint.mk 0 1) (RasterPoint.mk 5 1) 3])
    4 2 3 "horizontal" (by decide) (by decide) (by decide)
